import Mathlib

/-!
Verification of the lirashield portfolio core: the FIFO lot engine
(src/services/fifo.py), the daily-compounded CPI interpolator and the
exchange-rate lookup (src/core/database.py), the real-return calculator
(src/core/analysis.py) and the per-lot analysis of
src/services/analysis.py.

Modelling conventions:
- Python floats are modelled by exact rationals, except the CPI
  interpolator whose fractional powers are modelled over the reals with
  Real.rpow.
- Dates are records of year, month and day.  The source stores dates as
  zero-padded YYYY-MM-DD strings and compares them as strings, which for
  the valid dates the source accepts coincides with lexicographic
  comparison of (year, month, day); year-month strings YYYY-MM are
  likewise order-isomorphic to the linear index year * 12 + (month - 1).
- The SQL tables (cpi_usd_rates, cpi_official), whose key columns are
  UNIQUE, are modelled as association lists; where a proof needs
  determinism of the retrieval order it assumes the list is strictly
  sorted by key, the canonical presentation of such a table.
-/

namespace LiraShield

/-- Calendar date, mirroring the YYYY-MM-DD strings of the source. -/
structure Date where
  year : Nat
  month : Nat
  day : Nat
deriving DecidableEq

/-- Strict lexicographic order on dates; for valid dates this is exactly
the string comparison the source performs on YYYY-MM-DD strings. -/
def Date.lt (a b : Date) : Prop :=
  a.year < b.year ∨ (a.year = b.year ∧
    (a.month < b.month ∨ (a.month = b.month ∧ a.day < b.day)))

instance (a b : Date) : Decidable (Date.lt a b) :=
  inferInstanceAs (Decidable (a.year < b.year ∨ (a.year = b.year ∧
    (a.month < b.month ∨ (a.month = b.month ∧ a.day < b.day)))))

/-- Non-strict date order (used by the SQL filter date <= query). -/
def Date.le (a b : Date) : Prop := Date.lt a b ∨ a = b

instance (a b : Date) : Decidable (Date.le a b) :=
  inferInstanceAs (Decidable (Date.lt a b ∨ a = b))

/-- Gregorian leap-year rule, as used by Python calendar.monthrange. -/
def isLeapYear (y : Nat) : Bool :=
  (y % 4 == 0 && y % 100 != 0) || y % 400 == 0

/-- Number of days in a month (calendar.monthrange(year, month)(1)).
The source raises on a month outside 1..12; such junk months return 0
here and are never produced by the valid dates the source parses. -/
def get_days_in_month (year month : Nat) : Nat :=
  if month = 2 then (if isLeapYear year then 29 else 28)
  else if month = 4 ∨ month = 6 ∨ month = 9 ∨ month = 11 then 30
  else if 1 ≤ month ∧ month ≤ 12 then 31
  else 0

/-- Days of the year strictly before the given month. -/
def daysBeforeMonth (year month : Nat) : Nat :=
  ((List.range' 1 (month - 1)).map (get_days_in_month year)).sum

/-- Proleptic Gregorian ordinal of a date (Python date.toordinal):
differences of ordinals are the day counts datetime subtraction yields. -/
def toOrdinalNat (d : Date) : Nat :=
  365 * (d.year - 1) + (d.year - 1) / 4 - (d.year - 1) / 100
    + (d.year - 1) / 400 + daysBeforeMonth d.year d.month + d.day

/-- (sell_dt - buy_dt).days of the source. -/
def holdingDays (buy sell : Date) : Int :=
  (toOrdinalNat sell : Int) - (toOrdinalNat buy : Int)

/-- Transaction type constant TX_BUY of src/core/database.py. -/
def TX_BUY : String := "BUY"

/-- Transaction type constant TX_SELL of src/core/database.py. -/
def TX_SELL : String := "SELL"

/-- Asset type constant ASSET_CASH of src/core/database.py. -/
def ASSET_CASH : String := "CASH"

/-- Currency constant CURRENCY_USD of src/core/database.py. -/
def CURRENCY_USD : String := "USD"

/-- One row of the transactions DataFrame consumed by
calculate_fifo_for_ticker.  price_per_share and tax_rate are optional:
the source replaces a missing (NaN) value by 0.0. -/
structure Tx where
  id : Int
  date : Date
  ticker : String
  quantity : ℚ
  price_per_share : Option ℚ
  tax_rate : Option ℚ
  asset_type : String
  currency : String
  transaction_type : String
deriving DecidableEq

/-- OpenLot of src/services/fifo.py. -/
structure OpenLot where
  buy_id : Int
  buy_date : Date
  buy_price : ℚ
  quantity : ℚ
  remaining_quantity : ℚ
  cost_basis : ℚ
  tax_rate : ℚ
  asset_type : String
  currency : String
deriving DecidableEq

/-- LotMatch of src/services/fifo.py. -/
structure LotMatch where
  buy_date : Date
  buy_price : ℚ
  sell_date : Date
  sell_price : ℚ
  quantity : ℚ
  cost_basis : ℚ
  proceeds : ℚ
  realized_gain : ℚ
  realized_gain_pct : ℚ
  holding_days : Int
  tax_rate : ℚ
deriving DecidableEq

/-- FIFOResult of src/services/fifo.py. -/
structure FIFOResult where
  ticker : String
  asset_type : String
  currency : String
  open_lots : List OpenLot
  closed_lots : List LotMatch
  total_shares_held : ℚ
  total_cost_basis : ℚ
  avg_cost_per_share : ℚ
  total_realized_gain : ℚ
  total_proceeds : ℚ
deriving DecidableEq

/-- The LotMatch emitted when matched_qty shares of a lot are consumed by
a sell: mirrors the closed_lots.append calls of calculate_fifo_for_ticker,
including realized_gain_pct = 0 whenever cost_basis is not positive. -/
def mkLotMatch (lot : OpenLot) (sell_price : ℚ) (sell_date : Date)
    (matched_qty : ℚ) : LotMatch :=
  let cost_basis := lot.buy_price * matched_qty
  let proceeds := sell_price * matched_qty
  let realized_gain := proceeds - cost_basis
  { buy_date := lot.buy_date
    buy_price := lot.buy_price
    sell_date := sell_date
    sell_price := sell_price
    quantity := matched_qty
    cost_basis := cost_basis
    proceeds := proceeds
    realized_gain := realized_gain
    realized_gain_pct :=
      if 0 < cost_basis then realized_gain / cost_basis * 100 else 0
    holding_days := holdingDays lot.buy_date sell_date
    tax_rate := lot.tax_rate }

/-- The while loop of the TX_SELL branch of calculate_fifo_for_ticker:
while the remaining sell quantity is positive and the queue is non-empty,
consume the oldest lot, either fully (pop it) or partially (shrink its
remaining_quantity and cost_basis).  When the queue empties with quantity
still unmatched the loop simply stops. -/
def matchSell (sell_price : ℚ) (sell_date : Date) :
    ℚ → List OpenLot → List LotMatch → List OpenLot × List LotMatch
  | _, [], closed => ([], closed)
  | need, lot :: rest, closed =>
    if 0 < need then
      if lot.remaining_quantity ≤ need then
        matchSell sell_price sell_date (need - lot.remaining_quantity) rest
          (closed ++ [mkLotMatch lot sell_price sell_date lot.remaining_quantity])
      else
        ({ lot with
            remaining_quantity := lot.remaining_quantity - need,
            cost_basis := lot.buy_price * (lot.remaining_quantity - need) } :: rest,
         closed ++ [mkLotMatch lot sell_price sell_date need])
    else (lot :: rest, closed)

/-- Body of the per-row loop of calculate_fifo_for_ticker: a BUY appends a
fresh lot to the queue, a SELL runs the FIFO matching loop, any other
transaction type falls through.  asset_type and currency are those of the
first row of the ticker, used for every lot. -/
def processTx (asset_type currency : String)
    (acc : List OpenLot × List LotMatch) (t : Tx) :
    List OpenLot × List LotMatch :=
  let price := t.price_per_share.getD 0
  let taxr := t.tax_rate.getD 0
  if t.transaction_type = TX_BUY then
    (acc.1 ++ [{ buy_id := t.id
                 buy_date := t.date
                 buy_price := price
                 quantity := t.quantity
                 remaining_quantity := t.quantity
                 cost_basis := price * t.quantity
                 tax_rate := taxr
                 asset_type := asset_type
                 currency := currency }], acc.2)
  else if t.transaction_type = TX_SELL then
    matchSell price t.date t.quantity acc.1 acc.2
  else acc

/-- Stable insertion of a transaction into a date-sorted list: it goes
before the first strictly later transaction, hence after every equal-dated
one inserted earlier. -/
def insertTx (t : Tx) : List Tx → List Tx
  | [] => [t]
  | u :: us => if Date.lt t.date u.date then t :: u :: us else u :: insertTx t us

/-- Stable sort by ascending date, the order sort_values(date) yields
(pandas uses a stable sort, and the stable sort by a key is unique). -/
def sortByDate (txs : List Tx) : List Tx :=
  txs.foldl (fun acc t => insertTx t acc) []

/-- calculate_fifo_for_ticker of src/services/fifo.py: filter the
transactions of the ticker, sort by date ascending, replay them through
the FIFO queue and aggregate. -/
def calculate_fifo_for_ticker (df : List Tx) (ticker : String) : FIFOResult :=
  match sortByDate (df.filter (fun t => t.ticker = ticker)) with
  | [] =>
    { ticker := ticker, asset_type := "", currency := ""
      open_lots := [], closed_lots := []
      total_shares_held := 0, total_cost_basis := 0, avg_cost_per_share := 0
      total_realized_gain := 0, total_proceeds := 0 }
  | first :: rest =>
    let asset_type := first.asset_type
    let currency := first.currency
    let res := (first :: rest).foldl (processTx asset_type currency) ([], [])
    let open_lots := res.1
    let closed_lots := res.2
    let total_shares := (open_lots.map OpenLot.remaining_quantity).sum
    let total_cost_basis := (open_lots.map OpenLot.cost_basis).sum
    { ticker := ticker
      asset_type := asset_type
      currency := currency
      open_lots := open_lots
      closed_lots := closed_lots
      total_shares_held := total_shares
      total_cost_basis := total_cost_basis
      avg_cost_per_share :=
        if 0 < total_shares then total_cost_basis / total_shares else 0
      total_realized_gain := (closed_lots.map LotMatch.realized_gain).sum
      total_proceeds := (closed_lots.map LotMatch.proceeds).sum }

/-- Sum of remaining_quantity over a lot queue. -/
def sumRemaining (lots : List OpenLot) : ℚ :=
  (lots.map OpenLot.remaining_quantity).sum

/-- Sum of matched quantity over emitted LotMatches. -/
def sumMatched (ms : List LotMatch) : ℚ :=
  (ms.map LotMatch.quantity).sum

/-- Sum of quantity over the BUY transactions of a list. -/
def sumBuyQty (txs : List Tx) : ℚ :=
  ((txs.filter (fun t => t.transaction_type = TX_BUY)).map Tx.quantity).sum

/-- The cpi_usd_rates table: (date, usd_try_rate) rows, date UNIQUE.
Kept in ascending date order, the canonical presentation. -/
abbrev RatesDb := List (Date × ℚ)

/-- Well-formedness of a rates table: strictly ascending dates, which
encodes the UNIQUE constraint together with a deterministic order. -/
abbrev RatesSorted (db : RatesDb) : Prop :=
  List.Pairwise (fun a b : Date × ℚ => Date.lt a.1 b.1) db

/-- get_cpi_usd_rate_for_date of src/core/database.py: exact-date lookup
first; on a miss, None when exact_match is requested, otherwise the rate
of the latest stored date at or before the query date. -/
def get_cpi_usd_rate_for_date (db : RatesDb) (date : Date)
    (exact_match : Bool) : Option ℚ :=
  match db.find? (fun r => decide (r.1 = date)) with
  | some r => some r.2
  | none =>
    if exact_match then none
    else ((db.filter (fun r => decide (Date.le r.1 date))).getLast?).map
      (fun r => r.2)

/-- The cpi_official table: rows (year_month, cpi_mom), year_month UNIQUE,
keyed here by the linear month index year * 12 + (month - 1); a row whose
cpi_mom column is NULL carries none.  Kept in ascending key order. -/
abbrev CpiDb := List (Nat × Option ℚ)

/-- Well-formedness of the CPI table: strictly ascending month keys. -/
abbrev CpiSorted (db : CpiDb) : Prop :=
  List.Pairwise (fun a b : Nat × Option ℚ => a.1 < b.1) db

/-- Linear month index of a date, order-isomorphic to the YYYY-MM string
of the source for the valid months it stores. -/
def ymIndex (d : Date) : Nat := d.year * 12 + (d.month - 1)

/-- First day of the month with the given linear index (used to state
properties about whole-month spans). -/
def ymDate (n : Nat) : Date := ⟨n / 12, n % 12 + 1, 1⟩

/-- get_cpi_mom_for_month of src/core/database.py: the row of the month
if present, its value if non-NULL. -/
def get_cpi_mom_for_month (db : CpiDb) (ym : Nat) : Option ℚ :=
  match db.find? (fun r => decide (r.1 = ym)) with
  | some r => r.2
  | none => none

/-- get_latest_cpi_mom of src/core/database.py: the non-NULL row with the
greatest year_month (ORDER BY year_month DESC LIMIT 1). -/
def get_latest_cpi_mom (db : CpiDb) : Option (Nat × ℚ) :=
  match (db.filter (fun r => r.2.isSome)).getLast? with
  | some r => some (r.1, r.2.getD 0)
  | none => none

/-- The rows SELECTed by the full-months query of
calculate_cumulative_cpi_daily: year_month strictly between the start and
end months, in ascending order. -/
def cpiBetweenRows (db : CpiDb) (a b : Nat) : List (Nat × Option ℚ) :=
  db.filter (fun r => decide (a < r.1) && decide (r.1 < b))

/-- The end-month span of calculate_cumulative_cpi_daily: on day 1 no day
of the end month has elapsed and the factor is 1; otherwise the end
month's MoM rate is used, falling back to the latest recorded rate when
it is missing, and the factor stays 1 when no rate is recorded at all. -/
noncomputable def cpiEndFactor (db : CpiDb) (end_date : Date) : ℝ :=
  let days_elapsed : Int := (end_date.day : Int) - 1
  if 0 < days_elapsed then
    match (match get_cpi_mom_for_month db (ymIndex end_date) with
           | some m => some m
           | none => (get_latest_cpi_mom db).map Prod.snd) with
    | some end_mom =>
      (1 + (end_mom : ℝ) / 100) ^
        ((days_elapsed : ℝ) /
          (get_days_in_month end_date.year end_date.month : ℝ))
    | none => 1
  else 1

/-- calculate_cumulative_cpi_daily of src/core/database.py.  Same month:
0 when no day has elapsed, otherwise the month rate compounded over the
elapsed fraction of the month (None if the rate is missing).  Otherwise:
the start month compounds its remaining fraction (None if its rate is
missing), every row strictly between contributes its full factor (None if
any such row is NULL), and the end month contributes cpiEndFactor. -/
noncomputable def calculate_cumulative_cpi_daily (db : CpiDb)
    (start_date end_date : Date) : Option ℝ :=
  if start_date.year = end_date.year ∧ start_date.month = end_date.month then
    let days_held : Int := (end_date.day : Int) - (start_date.day : Int)
    if days_held ≤ 0 then some 0
    else
      match get_cpi_mom_for_month db (ymIndex start_date) with
      | none => none
      | some mom =>
        let dim := get_days_in_month start_date.year start_date.month
        some (((1 + (mom : ℝ) / 100) ^ ((days_held : ℝ) / (dim : ℝ)) - 1) * 100)
  else
    match get_cpi_mom_for_month db (ymIndex start_date) with
    | none => none
    | some start_mom =>
      let dim_s := get_days_in_month start_date.year start_date.month
      let days_remaining : Int := (dim_s : Int) - (start_date.day : Int) + 1
      let start_factor : ℝ :=
        (1 + (start_mom : ℝ) / 100) ^ ((days_remaining : ℝ) / (dim_s : ℝ))
      let rows := cpiBetweenRows db (ymIndex start_date) (ymIndex end_date)
      if rows.any (fun r => r.2.isNone) then none
      else
        let full_factor : ℝ :=
          (rows.map (fun r => 1 + ((r.2.getD 0 : ℚ) : ℝ) / 100)).prod
        some ((start_factor * full_factor * cpiEndFactor db end_date - 1) * 100)

/-- Python round(y, nd): round half to the nearest representable; exact
halves are vanishingly rare here, modelled as round-half-up on rationals. -/
def pyRound (nd : Nat) (y : ℚ) : ℚ :=
  ((round (y * 10 ^ nd) : ℤ) : ℚ) / 10 ^ nd

/-- The result dictionary of calculate_real_return: the success shape.
The source dict for cash lots carries only the first five keys; the
remaining fields are none / 0 there. -/
structure Analysis where
  nominal_pct : ℚ
  usd_inflation_pct : Option ℚ
  real_return_usd_pct : Option ℚ
  cpi_inflation_pct : Option ℚ
  real_return_cpi_pct : Option ℚ
  buy_usd : Option ℚ
  current_usd : Option ℚ
  tax_rate : ℚ
  tax_amount_per_share : Option ℚ
deriving DecidableEq

/-- Return value of calculate_real_return: either the success dictionary
or the dictionary carrying only an error message. -/
inductive RealReturnResult where
  | err (msg : String)
  | ok (a : Analysis)
deriving DecidableEq

/-- Whether a RealReturnResult is the error dictionary. -/
def RealReturnResult.isErr : RealReturnResult → Bool
  | .err _ => true
  | .ok _ => false

/-- calculate_real_return of src/core/analysis.py.  The three database
and clock dependent lookups of the source, get_usd_rate(buy_date),
get_usd_rate(today) and calculate_cumulative_cpi_daily(buy_date, today),
are injected as the arguments buy_usd, current_usd and cpi_change; the
auto_fetch flag only alters how those lookups are produced and has no
further effect, so it is absorbed by the injection. -/
def calculate_real_return (buy_price current_price : ℚ) (buy_date : String)
    (tax_rate : ℚ) (skip_usd_cpi : Bool)
    (buy_usd current_usd cpi_change : Option ℚ) : RealReturnResult :=
  let try_gain := max 0 (current_price - buy_price)
  let tax_amount := try_gain * (tax_rate / 100)
  let after_tax_current := current_price - tax_amount
  let nominal_return := (after_tax_current - buy_price) / buy_price
  let base : Analysis :=
    { nominal_pct := pyRound 2 (nominal_return * 100)
      usd_inflation_pct := none
      real_return_usd_pct := none
      cpi_inflation_pct := none
      real_return_cpi_pct := none
      buy_usd := none
      current_usd := none
      tax_rate := tax_rate
      tax_amount_per_share :=
        if 0 < tax_rate then some (pyRound 4 tax_amount) else none }
  if skip_usd_cpi then .ok base
  else
    let withUsd : Analysis :=
      match buy_usd, current_usd with
      | some bu, some cu =>
        let usd_change := (cu - bu) / bu
        let real_return_usd := (1 + nominal_return) / (1 + usd_change) - 1
        { base with
            usd_inflation_pct := some (pyRound 2 (usd_change * 100))
            real_return_usd_pct := some (pyRound 2 (real_return_usd * 100))
            buy_usd := some (pyRound 4 bu)
            current_usd := some (pyRound 4 cu) }
      | _, _ => base
    let withCpi : Analysis :=
      match cpi_change with
      | some c =>
        let real_return_cpi := (1 + nominal_return) / (1 + c / 100) - 1
        { withUsd with
            cpi_inflation_pct := some (pyRound 2 c)
            real_return_cpi_pct := some (pyRound 2 (real_return_cpi * 100)) }
      | none => withUsd
    if withCpi.real_return_usd_pct = none ∧ withCpi.real_return_cpi_pct = none then
      .err ("Missing both USD and CPI data for " ++ buy_date ++
        ". Add rates in USD/CPI tabs.")
    else .ok withCpi

/-- The open-lot analysis step of AnalysisService.analyze_portfolio
(src/services/analysis.py, lines 90-145): cash lots get a fixed zero
dictionary; other lots first compute the after-tax nominal return in the
lot currency; a USD lot whose two exchange-rate lookups are truthy
(present and non-zero) has its prices converted to TRY and analysed with
tax_rate 0 and skip_usd_cpi True, the nominal then overridden with the
USD figure; every other lot is analysed directly.  As above the rate and
CPI lookups are injected as buy_usd_rate, current_usd_rate, cpi_change. -/
def analyzeOpenLot (asset_type currency : String) (current_price : ℚ)
    (buy_price tax_rate : ℚ) (buy_date : String)
    (buy_usd_rate current_usd_rate cpi_change : Option ℚ) : RealReturnResult :=
  if asset_type = ASSET_CASH then
    .ok { nominal_pct := 0
          usd_inflation_pct := none
          real_return_usd_pct := none
          cpi_inflation_pct := none
          real_return_cpi_pct := none
          buy_usd := none
          current_usd := none
          tax_rate := 0
          tax_amount_per_share := none }
  else
    let lot_current_price := if 0 < current_price then current_price else buy_price
    let try_gain := max 0 (lot_current_price - buy_price)
    let tax_amount := try_gain * (tax_rate / 100)
    let after_tax_current := lot_current_price - tax_amount
    let nominal_return := (after_tax_current - buy_price) / buy_price
    let nominal_pct := pyRound 2 (nominal_return * 100)
    let standard := calculate_real_return buy_price lot_current_price buy_date
      tax_rate false buy_usd_rate current_usd_rate cpi_change
    match buy_usd_rate, current_usd_rate with
    | some bu, some cu =>
      if currency = CURRENCY_USD ∧ bu ≠ 0 ∧ cu ≠ 0 then
        match calculate_real_return (buy_price * bu) (lot_current_price * cu)
          buy_date 0 true buy_usd_rate current_usd_rate cpi_change with
        | .ok a => .ok { a with nominal_pct := nominal_pct }
        | .err m => .err m
      else standard
    | _, _ => standard

/-- Scenario of the spec: buy 100 at 10 on 2024-01-01, buy 50 at 15 on
2024-02-01, sell 120 at 20 on 2024-03-01. -/
def scenarioTxs : List Tx := [
  { id := 1, date := ⟨2024, 1, 1⟩, ticker := "AAA", quantity := 100,
    price_per_share := some 10, tax_rate := some 0, asset_type := "TEFAS",
    currency := "TRY", transaction_type := "BUY" },
  { id := 2, date := ⟨2024, 2, 1⟩, ticker := "AAA", quantity := 50,
    price_per_share := some 15, tax_rate := some 0, asset_type := "TEFAS",
    currency := "TRY", transaction_type := "BUY" },
  { id := 3, date := ⟨2024, 3, 1⟩, ticker := "AAA", quantity := 120,
    price_per_share := some 20, tax_rate := some 0, asset_type := "TEFAS",
    currency := "TRY", transaction_type := "SELL" }]

/-- Oversold history: 5 shares bought, 10 sold. -/
def oversoldTxs : List Tx := [
  { id := 1, date := ⟨2024, 1, 1⟩, ticker := "B", quantity := 5,
    price_per_share := some 10, tax_rate := none, asset_type := "TEFAS",
    currency := "TRY", transaction_type := "BUY" },
  { id := 2, date := ⟨2024, 2, 1⟩, ticker := "B", quantity := 10,
    price_per_share := some 20, tax_rate := none, asset_type := "TEFAS",
    currency := "TRY", transaction_type := "SELL" }]

/-- The same history with the sell already capped at the 5 available
shares. -/
def exactSellTxs : List Tx := [
  { id := 1, date := ⟨2024, 1, 1⟩, ticker := "B", quantity := 5,
    price_per_share := some 10, tax_rate := none, asset_type := "TEFAS",
    currency := "TRY", transaction_type := "BUY" },
  { id := 2, date := ⟨2024, 2, 1⟩, ticker := "B", quantity := 5,
    price_per_share := some 20, tax_rate := none, asset_type := "TEFAS",
    currency := "TRY", transaction_type := "SELL" }]

/-- A buy with no recorded price followed by a sell of the whole lot. -/
def zeroCostTxs : List Tx := [
  { id := 1, date := ⟨2024, 1, 1⟩, ticker := "Z", quantity := 5,
    price_per_share := none, tax_rate := none, asset_type := "TEFAS",
    currency := "TRY", transaction_type := "BUY" },
  { id := 2, date := ⟨2024, 2, 1⟩, ticker := "Z", quantity := 5,
    price_per_share := some 20, tax_rate := none, asset_type := "TEFAS",
    currency := "TRY", transaction_type := "SELL" }]

/-- The single match produced by replaying zeroCostTxs. -/
def zeroCostMatch : LotMatch :=
  { buy_date := ⟨2024, 1, 1⟩, buy_price := 0, sell_date := ⟨2024, 2, 1⟩,
    sell_price := 20, quantity := 5, cost_basis := 0, proceeds := 100,
    realized_gain := 100, realized_gain_pct := 0, holding_days := 31,
    tax_rate := 0 }

/-- Two stored exchange-rate observations. -/
def ratesExample : RatesDb := [(⟨2024, 1, 1⟩, 30), (⟨2024, 1, 5⟩, 31)]

/-- CPI table holding MoM rates 2, 3 and 5 for the three consecutive
months 2024-01, 2024-02 and 2024-03 (linear indices 24288..24290). -/
def cpiThreeMonths : CpiDb := [(24288, some 2), (24289, some 3), (24290, some 5)]

/-- CPI table holding only the 2024-01 MoM rate 6.70 of the spec
scenario. -/
def cpiJanOnly : CpiDb := [(24288, some (67/10))]

/-- CPI table holding only a 2024-01 MoM rate of 10; the full month
2024-02 has no row at all. -/
def cpiGapDb : CpiDb := [(24288, some 10)]

/-- CPI table holding only a 2024-01 MoM rate of 4. -/
def cpiLatestFallbackDb : CpiDb := [(24288, some 4)]

theorem sumMatched_append (l : List LotMatch) (m : LotMatch) :
    sumMatched (l ++ [m]) = sumMatched l + m.quantity := by
  simp [sumMatched]

theorem mkLotMatch_quantity (lot : OpenLot) (sp : ℚ) (sd : Date) (q : ℚ) :
    (mkLotMatch lot sp sd q).quantity = q := rfl

/-- The inner matching loop moves quantity from the open queue to the
emitted matches and nowhere else. -/
theorem matchSell_conservation (sp : ℚ) (sd : Date) :
    ∀ (lots : List OpenLot) (need : ℚ) (closed : List LotMatch),
      sumRemaining (matchSell sp sd need lots closed).1 +
        sumMatched (matchSell sp sd need lots closed).2 =
      sumRemaining lots + sumMatched closed
  | [], need, closed => by simp [matchSell, sumRemaining]
  | lot :: rest, need, closed => by
    by_cases h0 : 0 < need
    · by_cases hle : lot.remaining_quantity ≤ need
      · have hrec := matchSell_conservation sp sd rest (need - lot.remaining_quantity)
          (closed ++ [mkLotMatch lot sp sd lot.remaining_quantity])
        simp only [matchSell, if_pos h0, if_pos hle]
        rw [hrec, sumMatched_append, mkLotMatch_quantity]
        simp [sumRemaining]
        ring
      · simp only [matchSell, if_pos h0, if_neg hle]
        rw [sumMatched_append, mkLotMatch_quantity]
        simp [sumRemaining]
        ring
    · simp [matchSell, if_neg h0]

/-- Replaying one transaction adds its quantity to the conserved total
exactly when it is a BUY. -/
theorem processTx_conservation (a_ty c_cy : String)
    (acc : List OpenLot × List LotMatch) (t : Tx) :
    sumRemaining (processTx a_ty c_cy acc t).1 +
      sumMatched (processTx a_ty c_cy acc t).2 =
    sumRemaining acc.1 + sumMatched acc.2 +
      (if t.transaction_type = TX_BUY then t.quantity else 0) := by
  by_cases hb : t.transaction_type = TX_BUY
  · simp [processTx, hb, sumRemaining]
    ring
  · by_cases hs : t.transaction_type = TX_SELL
    · simp only [processTx, if_neg hb, if_pos hs]
      rw [matchSell_conservation]
      simp [hb]
    · simp [processTx, hb, hs]

theorem sumBuyQty_cons (t : Tx) (ts : List Tx) :
    sumBuyQty (t :: ts) =
      (if t.transaction_type = TX_BUY then t.quantity else 0) + sumBuyQty ts := by
  by_cases h : t.transaction_type = TX_BUY <;> simp [sumBuyQty, h]

/-- The replay of a transaction list conserves shares: open plus matched
equals the previous total plus all bought quantity. -/
theorem foldl_processTx_conservation (a_ty c_cy : String) :
    ∀ (txs : List Tx) (acc : List OpenLot × List LotMatch),
      sumRemaining (txs.foldl (processTx a_ty c_cy) acc).1 +
        sumMatched (txs.foldl (processTx a_ty c_cy) acc).2 =
      sumRemaining acc.1 + sumMatched acc.2 + sumBuyQty txs
  | [], acc => by simp [sumBuyQty]
  | t :: ts, acc => by
    simp only [List.foldl_cons]
    rw [foldl_processTx_conservation a_ty c_cy ts, processTx_conservation,
      sumBuyQty_cons]
    ring

theorem insertTx_perm (t : Tx) : ∀ l : List Tx, (insertTx t l).Perm (t :: l)
  | [] => List.Perm.refl _
  | u :: us => by
    by_cases h : Date.lt t.date u.date
    · simp [insertTx, h]
    · simp only [insertTx, if_neg h]
      exact ((insertTx_perm t us).cons u).trans (List.Perm.swap t u us)

theorem foldl_insertTx_perm :
    ∀ (txs acc : List Tx),
      (txs.foldl (fun acc t => insertTx t acc) acc).Perm (acc ++ txs)
  | [], acc => by simp
  | t :: ts, acc => by
    simp only [List.foldl_cons]
    refine (foldl_insertTx_perm ts (insertTx t acc)).trans ?_
    refine ((insertTx_perm t acc).append_right ts).trans ?_
    exact List.perm_middle.symm

/-- The stable sort is a permutation of its input. -/
theorem sortByDate_perm (txs : List Tx) : (sortByDate txs).Perm txs := by
  simpa using foldl_insertTx_perm txs []

theorem sumBuyQty_perm {l1 l2 : List Tx} (h : l1.Perm l2) :
    sumBuyQty l1 = sumBuyQty l2 := by
  unfold sumBuyQty
  exact ((h.filter _).map _).sum_eq

/-- Conservation of shares for a whole FIFO run, stated on the engine. -/
theorem fifo_conservation_aux (df : List Tx) (ticker : String) :
    sumRemaining (calculate_fifo_for_ticker df ticker).open_lots +
      sumMatched (calculate_fifo_for_ticker df ticker).closed_lots =
    sumBuyQty (df.filter (fun t => t.ticker = ticker)) := by
  cases h : sortByDate (df.filter (fun t => t.ticker = ticker)) with
  | nil =>
    have hperm := sortByDate_perm (df.filter (fun t => t.ticker = ticker))
    rw [h] at hperm
    rw [← sumBuyQty_perm hperm]
    simp [calculate_fifo_for_ticker, h, sumRemaining, sumMatched, sumBuyQty]
  | cons first rest =>
    have hperm := sortByDate_perm (df.filter (fun t => t.ticker = ticker))
    rw [h] at hperm
    rw [← sumBuyQty_perm hperm]
    simp only [calculate_fifo_for_ticker, h]
    rw [foldl_processTx_conservation]
    simp [sumRemaining, sumMatched]

/-- C1.  FIFO conservation: for every transaction list and ticker, the
sum of remaining_quantity over the open lots returned by
calculate_fifo_for_ticker plus the sum of quantity over the returned
LotMatches equals the sum of quantity over the BUY transactions of that
ticker: no shares are created or destroyed. -/
theorem fifo_conservation (df : List Tx) (ticker : String) :
    sumRemaining (calculate_fifo_for_ticker df ticker).open_lots +
      sumMatched (calculate_fifo_for_ticker df ticker).closed_lots =
    sumBuyQty (df.filter (fun t => t.ticker = ticker)) :=
  fifo_conservation_aux df ticker

section

attribute [local semireducible] Rat.add Rat.sub Rat.mul Rat.inv Rat.ofScientific

/-- C2.  FIFO ordering and original-buy-price cost basis on the spec
scenario: buys of 100 at 10 (2024-01-01) and 50 at 15 (2024-02-01)
followed by a sell of 120 at 20 (2024-03-01) produce exactly the matches
100 at buy price 10 and 20 at buy price 15, in that order, each priced at
the original buy price of the consumed lot, with total realized gain
1100, leaving one open lot of 30 shares at buy price 15 with cost basis
450. -/
theorem fifo_ordering_scenario :
    (calculate_fifo_for_ticker scenarioTxs "AAA").closed_lots =
      [{ buy_date := ⟨2024, 1, 1⟩, buy_price := 10, sell_date := ⟨2024, 3, 1⟩,
         sell_price := 20, quantity := 100, cost_basis := 1000, proceeds := 2000,
         realized_gain := 1000, realized_gain_pct := 100, holding_days := 60,
         tax_rate := 0 },
       { buy_date := ⟨2024, 2, 1⟩, buy_price := 15, sell_date := ⟨2024, 3, 1⟩,
         sell_price := 20, quantity := 20, cost_basis := 300, proceeds := 400,
         realized_gain := 100, realized_gain_pct := 100 / 3, holding_days := 29,
         tax_rate := 0 }] ∧
    (calculate_fifo_for_ticker scenarioTxs "AAA").open_lots =
      [{ buy_id := 2, buy_date := ⟨2024, 2, 1⟩, buy_price := 15, quantity := 50,
         remaining_quantity := 30, cost_basis := 450, tax_rate := 0,
         asset_type := "TEFAS", currency := "TRY" }] ∧
    (calculate_fifo_for_ticker scenarioTxs "AAA").total_realized_gain = 1100 := by
  refine ⟨?_, ?_, ?_⟩ <;> decide

end

section

attribute [local semireducible] Rat.add Rat.sub Rat.mul Rat.inv Rat.ofScientific

/-- C3 counterexample.  The oversold run (buy 5, sell 10) returns a
FIFOResult identical to that of the fully matchable run (buy 5, sell 5):
the unmatched remainder of 5 shares leaves no trace whatsoever in the
engine output, so it is not surfaced to the caller as a warning or in any
other way. -/
theorem oversold_no_warning_counterexample :
    calculate_fifo_for_ticker oversoldTxs "B" =
      calculate_fifo_for_ticker exactSellTxs "B" := by decide

end

/-- The matching loop keeps every remaining quantity non-negative: a
partially consumed head keeps a positive remainder, a fully consumed head
is dropped. -/
theorem matchSell_nonneg (sp : ℚ) (sd : Date) :
    ∀ (lots : List OpenLot) (need : ℚ) (closed : List LotMatch),
      (∀ l ∈ lots, 0 ≤ l.remaining_quantity) →
      ∀ l ∈ (matchSell sp sd need lots closed).1, 0 ≤ l.remaining_quantity
  | [], need, closed => by intro _ l hl; simp [matchSell] at hl
  | lot :: rest, need, closed => by
    intro hin l hl
    by_cases h0 : 0 < need
    · by_cases hle : lot.remaining_quantity ≤ need
      · simp only [matchSell, if_pos h0, if_pos hle] at hl
        exact matchSell_nonneg sp sd rest _ _
          (fun x hx => hin x (List.mem_cons_of_mem lot hx)) l hl
      · simp only [matchSell, if_pos h0, if_neg hle] at hl
        rcases List.mem_cons.mp hl with hgot | hgot
        · subst hgot
          have : need < lot.remaining_quantity := lt_of_not_ge hle
          simp only
          linarith
        · exact hin l (List.mem_cons_of_mem lot hgot)
    · simp only [matchSell, if_neg h0] at hl
      exact hin l hl

theorem foldl_processTx_nonneg (a_ty c_cy : String) :
    ∀ (txs : List Tx) (acc : List OpenLot × List LotMatch),
      (∀ t ∈ txs, 0 ≤ t.quantity) →
      (∀ l ∈ acc.1, 0 ≤ l.remaining_quantity) →
      ∀ l ∈ (txs.foldl (processTx a_ty c_cy) acc).1, 0 ≤ l.remaining_quantity
  | [], acc => by intro _ hacc l hl; exact hacc l hl
  | t :: ts, acc => by
    intro htx hacc l hl
    simp only [List.foldl_cons] at hl
    refine foldl_processTx_nonneg a_ty c_cy ts _
      (fun u hu => htx u (List.mem_cons_of_mem t hu)) ?_ l hl
    intro x hx
    by_cases hb : t.transaction_type = TX_BUY
    · simp only [processTx, if_pos hb] at hx
      rcases List.mem_append.mp hx with hx | hx
      · exact hacc x hx
      · rcases List.mem_singleton.mp hx with rfl
        exact htx t (List.mem_cons_self t ts)
    · by_cases hsell : t.transaction_type = TX_SELL
      · simp only [processTx, if_neg hb, if_pos hsell] at hx
        exact matchSell_nonneg _ _ acc.1 _ _ hacc x hx
      · simp only [processTx, if_neg hb, if_neg hsell] at hx
        exact hacc x hx

/-- Non-negative inventory for a whole run with non-negative input
quantities. -/
theorem fifo_open_nonneg_aux (df : List Tx) (ticker : String)
    (hq : ∀ t ∈ df, 0 ≤ t.quantity) :
    ∀ l ∈ (calculate_fifo_for_ticker df ticker).open_lots,
      0 ≤ l.remaining_quantity := by
  cases h : sortByDate (df.filter (fun t => t.ticker = ticker)) with
  | nil => simp [calculate_fifo_for_ticker, h]
  | cons first rest =>
    intro l hl
    simp only [calculate_fifo_for_ticker, h] at hl
    refine foldl_processTx_nonneg first.asset_type first.currency
      (first :: rest) ([], []) ?_ (by simp) l hl
    intro t ht
    have hperm := sortByDate_perm (df.filter (fun t => t.ticker = ticker))
    rw [h] at hperm
    have : t ∈ df.filter (fun t => t.ticker = ticker) := hperm.mem_iff.mp ht
    exact hq t (List.mem_of_mem_filter this)

theorem sumRemaining_nonneg {lots : List OpenLot}
    (h : ∀ l ∈ lots, 0 ≤ l.remaining_quantity) : 0 ≤ sumRemaining lots := by
  unfold sumRemaining
  refine List.sum_nonneg ?_
  intro x hx
  rcases List.mem_map.mp hx with ⟨l, hl, rfl⟩
  exact h l hl

/-- C3 amended.  Oversold handling: the engine never fails (it is a total
function), stops matching when the lot queue empties, and, when the input
quantities are non-negative, never creates negative inventory (every
returned open lot keeps a non-negative remaining quantity) and never
fabricates matches (the total matched quantity never exceeds the total
bought quantity); the unmatched remainder is silently dropped rather than
surfaced (see the counterexample: the oversold result is identical to the
fully matchable one). -/
theorem oversold_graceful_amended (df : List Tx) (ticker : String)
    (hq : ∀ t ∈ df, 0 ≤ t.quantity) :
    (∀ l ∈ (calculate_fifo_for_ticker df ticker).open_lots,
      0 ≤ l.remaining_quantity) ∧
    sumMatched (calculate_fifo_for_ticker df ticker).closed_lots ≤
      sumBuyQty (df.filter (fun t => t.ticker = ticker)) := by
  refine ⟨fifo_open_nonneg_aux df ticker hq, ?_⟩
  have hcons := fifo_conservation_aux df ticker
  have hnn := sumRemaining_nonneg (fifo_open_nonneg_aux df ticker hq)
  linarith

/-- Witness for the amended C3 theorem at the oversold example. -/
theorem oversold_graceful_amended_witness :
    (∀ t ∈ oversoldTxs, 0 ≤ t.quantity) ∧
    sumMatched (calculate_fifo_for_ticker oversoldTxs "B").closed_lots ≤
      sumBuyQty (oversoldTxs.filter (fun t => t.ticker = "B")) :=
  ⟨by decide, (oversold_graceful_amended oversoldTxs "B" (by decide)).2⟩

theorem mkLotMatch_pct_zero (lot : OpenLot) (sp : ℚ) (sd : Date) (q : ℚ)
    (h : (mkLotMatch lot sp sd q).cost_basis ≤ 0) :
    (mkLotMatch lot sp sd q).realized_gain_pct = 0 := by
  simp only [mkLotMatch] at h ⊢
  rw [if_neg (not_lt.mpr h)]

/-- Every match the inner loop emits has a zero percentage gain whenever
its cost basis is not positive. -/
theorem matchSell_closed_pct (sp : ℚ) (sd : Date) :
    ∀ (lots : List OpenLot) (need : ℚ) (closed : List LotMatch),
      (∀ m ∈ closed, m.cost_basis ≤ 0 → m.realized_gain_pct = 0) →
      ∀ m ∈ (matchSell sp sd need lots closed).2,
        m.cost_basis ≤ 0 → m.realized_gain_pct = 0
  | [], need, closed => by
    intro hin m hm
    simp only [matchSell] at hm
    exact hin m hm
  | lot :: rest, need, closed => by
    intro hin m hm
    by_cases h0 : 0 < need
    · have hstep : ∀ q, ∀ m ∈ closed ++ [mkLotMatch lot sp sd q],
          m.cost_basis ≤ 0 → m.realized_gain_pct = 0 := by
        intro q m hm hc
        rcases List.mem_append.mp hm with h | h
        · exact hin m h hc
        · rcases List.mem_singleton.mp h with rfl
          exact mkLotMatch_pct_zero lot sp sd q hc
      by_cases hle : lot.remaining_quantity ≤ need
      · simp only [matchSell, if_pos h0, if_pos hle] at hm
        exact matchSell_closed_pct sp sd rest _ _ (hstep _) m hm
      · simp only [matchSell, if_pos h0, if_neg hle] at hm
        exact hstep _ m hm
    · simp only [matchSell, if_neg h0] at hm
      exact hin m hm

/-- The matching loop never changes the buy price of a queued lot. -/
theorem matchSell_buy_price (Q : ℚ → Prop) (sp : ℚ) (sd : Date) :
    ∀ (lots : List OpenLot) (need : ℚ) (closed : List LotMatch),
      (∀ l ∈ lots, Q l.buy_price) →
      ∀ l ∈ (matchSell sp sd need lots closed).1, Q l.buy_price
  | [], need, closed => by
    intro _ l hl
    simp [matchSell] at hl
  | lot :: rest, need, closed => by
    intro hin l hl
    by_cases h0 : 0 < need
    · by_cases hle : lot.remaining_quantity ≤ need
      · simp only [matchSell, if_pos h0, if_pos hle] at hl
        exact matchSell_buy_price Q sp sd rest _ _
          (fun x hx => hin x (List.mem_cons_of_mem lot hx)) l hl
      · simp only [matchSell, if_pos h0, if_neg hle] at hl
        rcases List.mem_cons.mp hl with rfl | hgot
        · exact hin lot (List.mem_cons_self lot rest)
        · exact hin l (List.mem_cons_of_mem lot hgot)
    · simp only [matchSell, if_neg h0] at hl
      exact hin l hl

theorem foldl_processTx_closed_pct (a_ty c_cy : String) :
    ∀ (txs : List Tx) (acc : List OpenLot × List LotMatch),
      (∀ m ∈ acc.2, m.cost_basis ≤ 0 → m.realized_gain_pct = 0) →
      ∀ m ∈ (txs.foldl (processTx a_ty c_cy) acc).2,
        m.cost_basis ≤ 0 → m.realized_gain_pct = 0
  | [], acc => by intro hacc m hm; exact hacc m hm
  | t :: ts, acc => by
    intro hacc m hm
    simp only [List.foldl_cons] at hm
    refine foldl_processTx_closed_pct a_ty c_cy ts _ ?_ m hm
    intro x hx
    by_cases hb : t.transaction_type = TX_BUY
    · simp only [processTx, if_pos hb] at hx
      exact hacc x hx
    · by_cases hsell : t.transaction_type = TX_SELL
      · simp only [processTx, if_neg hb, if_pos hsell] at hx
        exact matchSell_closed_pct _ _ acc.1 _ _ hacc x hx
      · simp only [processTx, if_neg hb, if_neg hsell] at hx
        exact hacc x hx

/-- Every lot in the queue carries the price its originating BUY row was
processed with (a missing price becoming 0). -/
theorem foldl_processTx_origin (a_ty c_cy : String) (P : ℚ → Prop) :
    ∀ (txs : List Tx) (acc : List OpenLot × List LotMatch),
      (∀ t ∈ txs, t.transaction_type = TX_BUY → P (t.price_per_share.getD 0)) →
      (∀ l ∈ acc.1, P l.buy_price) →
      ∀ l ∈ (txs.foldl (processTx a_ty c_cy) acc).1, P l.buy_price
  | [], acc => by intro _ hacc l hl; exact hacc l hl
  | t :: ts, acc => by
    intro htx hacc l hl
    simp only [List.foldl_cons] at hl
    refine foldl_processTx_origin a_ty c_cy P ts _
      (fun u hu => htx u (List.mem_cons_of_mem t hu)) ?_ l hl
    intro x hx
    by_cases hb : t.transaction_type = TX_BUY
    · simp only [processTx, if_pos hb] at hx
      rcases List.mem_append.mp hx with hx | hx
      · exact hacc x hx
      · rcases List.mem_singleton.mp hx with rfl
        exact htx t (List.mem_cons_self t ts) hb
    · by_cases hsell : t.transaction_type = TX_SELL
      · simp only [processTx, if_neg hb, if_pos hsell] at hx
        exact matchSell_buy_price P _ _ acc.1 _ _ hacc x hx
      · simp only [processTx, if_neg hb, if_neg hsell] at hx
        exact hacc x hx

/-- C10.  FIFO totality on zero-cost lots: the engine is a total function
and needs no division guard beyond the one it has: every emitted LotMatch
whose cost_basis is not strictly positive carries realized_gain_pct = 0
instead of a quotient by the zero cost basis, and every open lot's
buy_price is the price its BUY row was processed with, a missing
price_per_share having been replaced by 0, on which matching proceeds
like on any other lot. -/
theorem fifo_zero_cost_safety (df : List Tx) (ticker : String) :
    (∀ m ∈ (calculate_fifo_for_ticker df ticker).closed_lots,
      m.cost_basis ≤ 0 → m.realized_gain_pct = 0) ∧
    (∀ l ∈ (calculate_fifo_for_ticker df ticker).open_lots,
      ∃ t, t ∈ df ∧ t.ticker = ticker ∧ t.transaction_type = TX_BUY ∧
        l.buy_price = t.price_per_share.getD 0) := by
  cases h : sortByDate (df.filter (fun t => t.ticker = ticker)) with
  | nil => simp [calculate_fifo_for_ticker, h]
  | cons first rest =>
    have hmem : ∀ t, t ∈ first :: rest → t ∈ df ∧ t.ticker = ticker := by
      intro t ht
      have hperm := sortByDate_perm (df.filter (fun t => t.ticker = ticker))
      rw [h] at hperm
      have hf : t ∈ df.filter (fun t => t.ticker = ticker) := hperm.mem_iff.mp ht
      exact ⟨List.mem_of_mem_filter hf, by simpa using List.of_mem_filter hf⟩
    constructor
    · intro m hm
      simp only [calculate_fifo_for_ticker, h] at hm
      exact foldl_processTx_closed_pct first.asset_type first.currency
        (first :: rest) ([], []) (by simp) m hm
    · intro l hl
      simp only [calculate_fifo_for_ticker, h] at hl
      refine foldl_processTx_origin first.asset_type first.currency
        (fun p => ∃ t, t ∈ df ∧ t.ticker = ticker ∧
          t.transaction_type = TX_BUY ∧ p = t.price_per_share.getD 0)
        (first :: rest) ([], []) ?_ (by simp) l hl
      intro t ht hb
      exact ⟨t, (hmem t ht).1, (hmem t ht).2, hb, rfl⟩

section

attribute [local semireducible] Rat.add Rat.sub Rat.mul Rat.inv Rat.ofScientific

/-- Witness for C10 at a priceless buy later sold in full. -/
theorem fifo_zero_cost_safety_witness :
    zeroCostMatch ∈ (calculate_fifo_for_ticker zeroCostTxs "Z").closed_lots ∧
    zeroCostMatch.cost_basis ≤ 0 ∧
    zeroCostMatch.realized_gain_pct = 0 :=
  ⟨by decide, by decide,
    (fifo_zero_cost_safety zeroCostTxs "Z").1 zeroCostMatch (by decide) (by decide)⟩

end

theorem Date.lt_irrefl (a : Date) : ¬ Date.lt a a := by
  simp [Date.lt]

theorem getLast?_eq_none_iff {α : Type} :
    ∀ (l : List α), l.getLast? = none ↔ l = []
  | [] => by simp
  | a :: t => by
    cases t with
    | nil => simp
    | cons b bs =>
      rw [List.getLast?_cons_cons]
      simp [getLast?_eq_none_iff (b :: bs)]

theorem Date.le_of_lt {a b : Date} (h : Date.lt a b) : Date.le a b := Or.inl h

theorem Date.le_refl (a : Date) : Date.le a a := Or.inr rfl

/-- If a row with the queried date is stored then the exact lookup finds
exactly that row (dates are unique in a sorted table). -/
theorem rates_find?_eq_some_of_mem :
    ∀ (db : RatesDb), RatesSorted db → ∀ (d : Date) (x : ℚ), (d, x) ∈ db →
      db.find? (fun r => decide (r.1 = d)) = some (d, x)
  | [] => by intro _ d x hx; simp at hx
  | a :: t => by
    intro hs d x hx
    obtain ⟨hhd, htl⟩ := List.pairwise_cons.mp hs
    rcases List.mem_cons.mp hx with rfl | hx
    · exact List.find?_cons_of_pos t (by simp)
    · have hne : a.1 ≠ d := by
        intro he
        have hlt := hhd (d, x) hx
        rw [he] at hlt
        exact Date.lt_irrefl d hlt
      rw [List.find?_cons_of_neg t (by simp [hne])]
      exact rates_find?_eq_some_of_mem t htl d x hx

/-- The last element of the filtered sorted table is a stored row
satisfying the filter and maximal among such rows. -/
theorem getLast?_filter_spec (p : Date × ℚ → Bool) :
    ∀ (db : RatesDb), RatesSorted db →
      ∀ r, (db.filter p).getLast? = some r →
        r ∈ db ∧ p r = true ∧ ∀ s ∈ db, p s = true → Date.le s.1 r.1
  | [] => by intro _ r hr; simp at hr
  | a :: t => by
    intro hs r hr
    obtain ⟨hhd, htl⟩ := List.pairwise_cons.mp hs
    by_cases hpa : p a
    · rw [List.filter_cons_of_pos hpa] at hr
      cases hft : t.filter p with
      | nil =>
        rw [hft] at hr
        have hra : a = r := by simpa using hr
        subst hra
        refine ⟨List.mem_cons_self a t, hpa, ?_⟩
        intro s hsmem hps
        rcases List.mem_cons.mp hsmem with rfl | hsmem
        · exact Date.le_refl s.1
        · exact absurd (hft ▸ List.mem_filter.mpr ⟨hsmem, hps⟩) (by simp)
      | cons b bs =>
        rw [hft, List.getLast?_cons_cons] at hr
        have hrec := getLast?_filter_spec p t htl r (by rw [hft]; exact hr)
        refine ⟨List.mem_cons_of_mem a hrec.1, hrec.2.1, ?_⟩
        intro s hsmem hps
        rcases List.mem_cons.mp hsmem with rfl | hsmem
        · exact Date.le_of_lt (hhd r hrec.1)
        · exact hrec.2.2 s hsmem hps
    · rw [List.filter_cons_of_neg (by simpa using hpa)] at hr
      have hrec := getLast?_filter_spec p t htl r hr
      refine ⟨List.mem_cons_of_mem a hrec.1, hrec.2.1, ?_⟩
      intro s hsmem hps
      rcases List.mem_cons.mp hsmem with rfl | hsmem
      · exact absurd hps hpa
      · exact hrec.2.2 s hsmem hps

/-- C8.  Exchange-rate resolver semantics on a sorted table: with
exact_match the stored rate is returned iff an observation exists for
exactly the queried date, and None otherwise; without exact_match, when
no exact observation exists the returned rate belongs to a stored date
strictly earlier than the query (never later) that is the latest among
the stored dates at or before the query, and None is returned exactly
when no observation at or before the query date exists. -/
theorem rate_lookup_semantics (db : RatesDb) (hs : RatesSorted db) (d : Date) :
    (∀ x : ℚ, get_cpi_usd_rate_for_date db d true = some x ↔ (d, x) ∈ db) ∧
    (get_cpi_usd_rate_for_date db d true = none ↔ ∀ x : ℚ, (d, x) ∉ db) ∧
    ((∀ x : ℚ, (d, x) ∉ db) →
      (∀ x : ℚ, get_cpi_usd_rate_for_date db d false = some x →
        ∃ d0 : Date, (d0, x) ∈ db ∧ Date.lt d0 d ∧
          ∀ s ∈ db, Date.le s.1 d → Date.le s.1 d0) ∧
      (get_cpi_usd_rate_for_date db d false = none ↔
        ∀ s ∈ db, ¬ Date.le s.1 d)) := by
  refine ⟨?_, ?_, ?_⟩
  · intro x
    constructor
    · intro hx
      unfold get_cpi_usd_rate_for_date at hx
      cases hf : db.find? (fun r => decide (r.1 = d)) with
      | none => rw [hf] at hx; simp at hx
      | some r =>
        rw [hf] at hx
        simp only [Option.some.injEq] at hx
        have hmem := List.mem_of_find?_eq_some hf
        have hkey : r.1 = d := by simpa using List.find?_some hf
        have : (d, x) = r := by
          cases r
          simp_all
        rw [this]
        exact hmem
    · intro hmem
      unfold get_cpi_usd_rate_for_date
      rw [rates_find?_eq_some_of_mem db hs d x hmem]
  · constructor
    · intro hx x hmem
      unfold get_cpi_usd_rate_for_date at hx
      rw [rates_find?_eq_some_of_mem db hs d x hmem] at hx
      simp at hx
    · intro hnone
      unfold get_cpi_usd_rate_for_date
      cases hf : db.find? (fun r => decide (r.1 = d)) with
      | none => simp
      | some r =>
        have hmem := List.mem_of_find?_eq_some hf
        have hkey : r.1 = d := by simpa using List.find?_some hf
        exfalso
        refine hnone r.2 ?_
        have : (d, r.2) = r := by cases r; simp_all
        rw [this]
        exact hmem
  · intro hnone
    have hf : db.find? (fun r => decide (r.1 = d)) = none := by
      cases hf : db.find? (fun r => decide (r.1 = d)) with
      | none => rfl
      | some r =>
        have hmem := List.mem_of_find?_eq_some hf
        have hkey : r.1 = d := by simpa using List.find?_some hf
        exfalso
        refine hnone r.2 ?_
        have : (d, r.2) = r := by cases r; simp_all
        rw [this]
        exact hmem
    constructor
    · intro x hx
      unfold get_cpi_usd_rate_for_date at hx
      rw [hf] at hx
      simp only [Bool.false_eq_true, if_false, Option.map_eq_some'] at hx
      obtain ⟨r, hlast, hval⟩ := hx
      obtain ⟨hmem, hp, hmax⟩ :=
        getLast?_filter_spec (fun r => decide (Date.le r.1 d)) db hs r hlast
      have hle : Date.le r.1 d := by simpa using hp
      have hlt : Date.lt r.1 d := by
        rcases hle with hlt | heq
        · exact hlt
        · exfalso
          refine hnone x ?_
          have : (d, x) = r := by
            cases r
            simp_all
          rw [this]
          exact hmem
      refine ⟨r.1, ?_, hlt, ?_⟩
      · have : (r.1, x) = r := by cases r; simp_all
        rw [this]
        exact hmem
      · intro s hsmem hsle
        exact hmax s hsmem (by simpa using hsle)
    · unfold get_cpi_usd_rate_for_date
      rw [hf]
      simp only [Bool.false_eq_true, if_false, Option.map_eq_none']
      constructor
      · intro hlastnone s hsmem hsle
        have hfil : db.filter (fun r => decide (Date.le r.1 d)) = [] :=
          (getLast?_eq_none_iff _).mp hlastnone
        have : s ∈ db.filter (fun r => decide (Date.le r.1 d)) :=
          List.mem_filter.mpr ⟨hsmem, by simpa using hsle⟩
        rw [hfil] at this
        simp at this
      · intro hall
        have hfil : db.filter (fun r => decide (Date.le r.1 d)) = [] := by
          refine List.filter_eq_nil_iff.mpr ?_
          intro s hsmem
          simpa using hall s hsmem
        rw [hfil]
        rfl

/-- Witness for C8 on two stored observations and a query between them. -/
theorem rate_lookup_semantics_witness :
    RatesSorted ratesExample ∧
    (∃ d0 : Date, (d0, (30 : ℚ)) ∈ ratesExample ∧ Date.lt d0 ⟨2024, 1, 3⟩ ∧
      ∀ s ∈ ratesExample, Date.le s.1 ⟨2024, 1, 3⟩ → Date.le s.1 d0) :=
  ⟨by decide,
    ((rate_lookup_semantics ratesExample (by decide) ⟨2024, 1, 3⟩).2.2
      (by simp [ratesExample])).1 30 (by decide)⟩

theorem ymIndex_ymDate (n : Nat) : ymIndex (ymDate n) = n := by
  simp only [ymIndex, ymDate]
  omega

theorem get_days_in_month_pos (y m : Nat) (h1 : 1 ≤ m) (h2 : m ≤ 12) :
    0 < get_days_in_month y m := by
  unfold get_days_in_month
  by_cases hm2 : m = 2
  · rw [if_pos hm2]
    split <;> norm_num
  · rw [if_neg hm2]
    by_cases hm30 : m = 4 ∨ m = 6 ∨ m = 9 ∨ m = 11
    · rw [if_pos hm30]
      norm_num
    · rw [if_neg hm30, if_pos ⟨h1, h2⟩]
      norm_num

/-- Exact-month lookup on a sorted CPI table: a stored row is found. -/
theorem cpi_find?_eq_some_of_mem :
    ∀ (db : CpiDb), CpiSorted db → ∀ (k : Nat) (v : Option ℚ), (k, v) ∈ db →
      db.find? (fun r => decide (r.1 = k)) = some (k, v)
  | [] => by intro _ k v hv; simp at hv
  | a :: t => by
    intro hs k v hv
    obtain ⟨hhd, htl⟩ := List.pairwise_cons.mp hs
    rcases List.mem_cons.mp hv with rfl | hv
    · exact List.find?_cons_of_pos t (by simp)
    · have hne : a.1 ≠ k := by
        intro he
        have hlt := hhd (k, v) hv
        omega
      rw [List.find?_cons_of_neg t (by simp [hne])]
      exact cpi_find?_eq_some_of_mem t htl k v hv

/-- A month whose MoM rate resolves has a row with that value. -/
theorem get_cpi_mom_some_mem (db : CpiDb) (k : Nat) (m : ℚ)
    (h : get_cpi_mom_for_month db k = some m) : (k, some m) ∈ db := by
  unfold get_cpi_mom_for_month at h
  cases hf : db.find? (fun r => decide (r.1 = k)) with
  | none => rw [hf] at h; simp at h
  | some r =>
    rw [hf] at h
    have hmem := List.mem_of_find?_eq_some hf
    have hkey : r.1 = k := by simpa using List.find?_some hf
    have : (k, some m) = r := by
      cases r
      simp_all
    rw [this]
    exact hmem

/-- On a sorted table, filtering with a predicate that holds exactly at a
stored key returns that row alone. -/
theorem cpi_filter_singleton (p : Nat × Option ℚ → Bool) :
    ∀ (t : CpiDb), CpiSorted t → ∀ (k : Nat) (v : Option ℚ), (k, v) ∈ t →
      (∀ s ∈ t, p s = true ↔ s.1 = k) → t.filter p = [(k, v)]
  | [] => by intro _ k v hv _; simp at hv
  | a :: t => by
    intro hs k v hv hp
    obtain ⟨hhd, htl⟩ := List.pairwise_cons.mp hs
    rcases List.mem_cons.mp hv with rfl | hv
    · rw [List.filter_cons_of_pos ((hp (k, v) (List.mem_cons_self (k, v) t)).mpr rfl)]
      have : t.filter p = [] := by
        refine List.filter_eq_nil_iff.mpr ?_
        intro s hsmem hps
        have hk : s.1 = (k, v).1 := (hp s (List.mem_cons_of_mem _ hsmem)).mp hps
        have hlt := hhd s hsmem
        omega
      rw [this]
    · have hak : a.1 ≠ k := by
        have hlt := hhd (k, v) hv
        omega
      rw [List.filter_cons_of_neg (by
        intro hpa
        exact hak ((hp a (List.mem_cons_self a t)).mp hpa))]
      exact cpi_filter_singleton p t htl k v hv
        (fun s hsmem => hp s (List.mem_cons_of_mem _ hsmem))

/-- The full-months query between a month and the month three later
returns exactly the two stored rows of the months in between. -/
theorem cpiBetweenRows_pair :
    ∀ (db : CpiDb), CpiSorted db → ∀ (n : Nat) (v2 v3 : Option ℚ),
      (n + 1, v2) ∈ db → (n + 2, v3) ∈ db →
      cpiBetweenRows db n (n + 3) = [(n + 1, v2), (n + 2, v3)]
  | [] => by intro _ n v2 v3 h2 _; simp at h2
  | a :: t => by
    intro hs n v2 v3 h2 h3
    obtain ⟨hhd, htl⟩ := List.pairwise_cons.mp hs
    rcases List.mem_cons.mp h2 with rfl | h2
    · have h3t : (n + 2, v3) ∈ t := by
        rcases List.mem_cons.mp h3 with he | h3t
        · exfalso
          have : n + 2 = n + 1 := congrArg Prod.fst he
          omega
        · exact h3t
      unfold cpiBetweenRows
      rw [List.filter_cons_of_pos (by simp)]
      have : t.filter (fun r => decide (n < r.1) && decide (r.1 < n + 3)) =
          [(n + 2, v3)] := by
        refine cpi_filter_singleton _ t htl (n + 2) v3 h3t ?_
        intro s hsmem
        have hlt := hhd s hsmem
        simp only [Bool.and_eq_true, decide_eq_true_eq]
        omega
      rw [this]
    · rcases List.mem_cons.mp h3 with he | h3t
      · exfalso
        have h2lt := hhd (n + 1, v2) h2
        have : a.1 = n + 2 := by rw [← he]
        omega
      · have halt : a.1 < n + 1 := hhd (n + 1, v2) h2
        unfold cpiBetweenRows
        rw [List.filter_cons_of_neg (by
          simp only [Bool.and_eq_true, decide_eq_true_eq]
          omega)]
        exact cpiBetweenRows_pair t htl n v2 v3 h2 h3t

/-- Unfolding of the multi-month branch when the start rate resolves and
no full-month row in between is NULL. -/
theorem cpi_multi_unfold (db : CpiDb) (s e : Date)
    (hne : ¬(s.year = e.year ∧ s.month = e.month)) (ms : ℚ)
    (h1 : get_cpi_mom_for_month db (ymIndex s) = some ms)
    (hno : (cpiBetweenRows db (ymIndex s) (ymIndex e)).any
      (fun r => r.2.isNone) = false) :
    calculate_cumulative_cpi_daily db s e =
      some (((1 + (ms : ℝ) / 100) ^
          ((((get_days_in_month s.year s.month : Int) - (s.day : Int) + 1 : Int) : ℝ) /
            (get_days_in_month s.year s.month : ℝ)) *
        ((cpiBetweenRows db (ymIndex s) (ymIndex e)).map
          (fun r => 1 + ((r.2.getD 0 : ℚ) : ℝ) / 100)).prod *
        cpiEndFactor db e - 1) * 100) := by
  unfold calculate_cumulative_cpi_daily
  rw [if_neg hne, h1]
  simp only [hno, Bool.false_eq_true, if_false]

/-- C5.  CPI full-month compounding: for three consecutive months with
recorded MoM rates m1, m2, m3 in a sorted CPI table, the cumulative CPI
from the first day of the first month to the first day of the month after
the third is exactly ((1+m1/100)(1+m2/100)(1+m3/100) - 1)*100: the start
month contributes its full factor (its remaining fraction is the whole
month), each month strictly between contributes (1+m/100), and day 1 of
the end month contributes nothing. -/
theorem cpi_three_full_months (db : CpiDb) (hs : CpiSorted db) (n : Nat)
    (m1 m2 m3 : ℚ)
    (h1 : get_cpi_mom_for_month db n = some m1)
    (h2 : get_cpi_mom_for_month db (n + 1) = some m2)
    (h3 : get_cpi_mom_for_month db (n + 2) = some m3) :
    calculate_cumulative_cpi_daily db (ymDate n) (ymDate (n + 3)) =
      some (((1 + (m1 : ℝ) / 100) * (1 + (m2 : ℝ) / 100) *
        (1 + (m3 : ℝ) / 100) - 1) * 100) := by
  have hne : ¬((ymDate n).year = (ymDate (n + 3)).year ∧
      (ymDate n).month = (ymDate (n + 3)).month) := by
    simp only [ymDate]
    omega
  have h1' : get_cpi_mom_for_month db (ymIndex (ymDate n)) = some m1 := by
    rw [ymIndex_ymDate]
    exact h1
  have hrows : cpiBetweenRows db (ymIndex (ymDate n)) (ymIndex (ymDate (n + 3))) =
      [(n + 1, some m2), (n + 2, some m3)] := by
    rw [ymIndex_ymDate, ymIndex_ymDate]
    exact cpiBetweenRows_pair db hs n (some m2) (some m3)
      (get_cpi_mom_some_mem db (n + 1) m2 h2)
      (get_cpi_mom_some_mem db (n + 2) m3 h3)
  have hno : (cpiBetweenRows db (ymIndex (ymDate n))
      (ymIndex (ymDate (n + 3)))).any (fun r => r.2.isNone) = false := by
    rw [hrows]
    rfl
  rw [cpi_multi_unfold db (ymDate n) (ymDate (n + 3)) hne m1 h1' hno, hrows]
  have hdim : 0 < get_days_in_month (ymDate n).year (ymDate n).month := by
    refine get_days_in_month_pos _ _ ?_ ?_ <;>
      (simp [ymDate]; try omega)
  have hend : cpiEndFactor db (ymDate (n + 3)) = 1 := by
    unfold cpiEndFactor
    norm_num [ymDate]
  have hexp : (((get_days_in_month (ymDate n).year (ymDate n).month : Int) -
      ((ymDate n).day : Int) + 1 : Int) : ℝ) /
      (get_days_in_month (ymDate n).year (ymDate n).month : ℝ) = 1 := by
    have hd1 : ((ymDate n).day : Int) = 1 := rfl
    rw [hd1]
    push_cast
    rw [sub_add_cancel]
    refine div_self ?_
    exact Nat.cast_ne_zero.mpr (by omega)
  rw [hend, hexp, Real.rpow_one]
  simp only [List.map_cons, List.map_nil, List.prod_cons, List.prod_nil,
    Option.getD_some]
  congr 1
  ring

/-- Witness for C5 on rates 2, 3, 5 for 2024-01..2024-03. -/
theorem cpi_three_full_months_witness :
    CpiSorted cpiThreeMonths ∧
    get_cpi_mom_for_month cpiThreeMonths 24288 = some 2 ∧
    calculate_cumulative_cpi_daily cpiThreeMonths (ymDate 24288) (ymDate 24291) =
      some (((1 + ((2 : ℚ) : ℝ) / 100) * (1 + ((3 : ℚ) : ℝ) / 100) *
        (1 + ((5 : ℚ) : ℝ) / 100) - 1) * 100) :=
  ⟨by decide, by decide,
    cpi_three_full_months cpiThreeMonths (by decide) 24288 2 3 5
      (by decide) (by decide) (by decide)⟩

/-- C6.  CPI same-month computation: for two dates of the same calendar
month, a non-positive day difference yields 0 (in particular the span
from any date to itself yields 0); a positive day difference with a
recorded MoM rate m yields ((1+m/100)^(days/days_in_month) - 1)*100; a
positive day difference with no recorded rate yields MissingData. -/
theorem cpi_same_month (db : CpiDb) (s e : Date)
    (hy : s.year = e.year) (hm : s.month = e.month) :
    (((e.day : Int) - (s.day : Int) ≤ 0) →
      calculate_cumulative_cpi_daily db s e = some 0) ∧
    (∀ m : ℚ, 0 < (e.day : Int) - (s.day : Int) →
      get_cpi_mom_for_month db (ymIndex s) = some m →
      calculate_cumulative_cpi_daily db s e =
        some (((1 + (m : ℝ) / 100) ^
          ((((e.day : Int) - (s.day : Int) : Int) : ℝ) /
            (get_days_in_month s.year s.month : ℝ)) - 1) * 100)) ∧
    (0 < (e.day : Int) - (s.day : Int) →
      get_cpi_mom_for_month db (ymIndex s) = none →
      calculate_cumulative_cpi_daily db s e = none) ∧
    (∀ (db' : CpiDb) (d : Date),
      calculate_cumulative_cpi_daily db' d d = some 0) := by
  refine ⟨?_, ?_, ?_, ?_⟩
  · intro hd
    unfold calculate_cumulative_cpi_daily
    rw [if_pos ⟨hy, hm⟩, if_pos hd]
  · intro m hd hmom
    unfold calculate_cumulative_cpi_daily
    rw [if_pos ⟨hy, hm⟩, if_neg (not_le.mpr hd), hmom]
  · intro hd hmom
    unfold calculate_cumulative_cpi_daily
    rw [if_pos ⟨hy, hm⟩, if_neg (not_le.mpr hd), hmom]
  · intro db' d
    unfold calculate_cumulative_cpi_daily
    rw [if_pos ⟨rfl, rfl⟩, if_pos (by omega)]

section

attribute [local semireducible] Rat.add Rat.sub Rat.mul Rat.inv Rat.ofScientific

/-- Witness for C6 on the spec scenario: MoM 6.70 for 2024-01, held from
2024-01-10 to 2024-01-20 in a 31-day month. -/
theorem cpi_same_month_witness :
    get_days_in_month 2024 1 = 31 ∧
    get_cpi_mom_for_month cpiJanOnly (ymIndex ⟨2024, 1, 10⟩) = some (67 / 10) ∧
    calculate_cumulative_cpi_daily cpiJanOnly ⟨2024, 1, 10⟩ ⟨2024, 1, 20⟩ =
      some (((1 + ((67 / 10 : ℚ) : ℝ) / 100) ^
        ((((20 : Int) - (10 : Int) : Int) : ℝ) /
          (get_days_in_month 2024 1 : ℝ)) - 1) * 100) :=
  ⟨by decide, by decide,
    (cpi_same_month cpiJanOnly ⟨2024, 1, 10⟩ ⟨2024, 1, 20⟩ rfl rfl).2.1
      (67 / 10) (by decide) (by decide)⟩

end

/-- C7 counterexample.  In cpiGapDb the full month 2024-02 (index 24289)
between 2024-01-01 and 2024-03-01 has no MoM rate recorded at all, yet
the computation does not return MissingData: it silently skips the absent
month and returns the start-month contribution, 10 percent. -/
theorem cpi_absent_between_month_counterexample :
    get_cpi_mom_for_month cpiGapDb 24289 = none ∧
    calculate_cumulative_cpi_daily cpiGapDb ⟨2024, 1, 1⟩ ⟨2024, 3, 1⟩ =
      some 10 := by
  refine ⟨by decide, ?_⟩
  have h1 : get_cpi_mom_for_month cpiGapDb (ymIndex ⟨2024, 1, 1⟩) =
      some 10 := by decide
  have hno : (cpiBetweenRows cpiGapDb (ymIndex ⟨2024, 1, 1⟩)
      (ymIndex ⟨2024, 3, 1⟩)).any (fun r => r.2.isNone) = false := by decide
  have hrows : cpiBetweenRows cpiGapDb (ymIndex ⟨2024, 1, 1⟩)
      (ymIndex ⟨2024, 3, 1⟩) = [] := by decide
  rw [cpi_multi_unfold cpiGapDb ⟨2024, 1, 1⟩ ⟨2024, 3, 1⟩ (by decide) 10 h1 hno,
    hrows]
  have hend : cpiEndFactor cpiGapDb ⟨2024, 3, 1⟩ = 1 := by
    unfold cpiEndFactor
    norm_num
  rw [hend]
  have hexp : (((get_days_in_month (2024 : Nat) 1 : Int) - ((1 : Nat) : Int) +
      1 : Int) : ℝ) / (get_days_in_month (2024 : Nat) 1 : ℝ) = 1 := by
    norm_num [get_days_in_month, isLeapYear]
  rw [show ((⟨2024, 1, 1⟩ : Date).year) = (2024 : Nat) from rfl,
    show ((⟨2024, 1, 1⟩ : Date).month) = (1 : Nat) from rfl,
    show ((⟨2024, 1, 1⟩ : Date).day) = (1 : Nat) from rfl,
    hexp, Real.rpow_one]
  simp only [List.map_nil, List.prod_nil]
  norm_num

/-- C7 amended.  CPI missing-data asymmetry on a multi-month span: a
missing start-month MoM (no row or NULL) makes the whole computation
return MissingData; a full month strictly between whose stored row has a
NULL MoM also does; but a full month strictly between with no row at all
is silently skipped (see the counterexample), and a missing end-month MoM
(when end.day exceeds 1) instead falls back to the most recent non-NULL
MoM by descending year-month, which always exists on this path because
the start month resolved. -/
theorem cpi_missing_data_asymmetry_amended (db : CpiDb) (s e : Date)
    (hne : ¬(s.year = e.year ∧ s.month = e.month)) :
    (get_cpi_mom_for_month db (ymIndex s) = none →
      calculate_cumulative_cpi_daily db s e = none) ∧
    (∀ k : Nat, (k, (none : Option ℚ)) ∈ db → ymIndex s < k → k < ymIndex e →
      calculate_cumulative_cpi_daily db s e = none) ∧
    (∀ (ms mlat : ℚ) (klat : Nat),
      get_cpi_mom_for_month db (ymIndex s) = some ms →
      (∀ r ∈ cpiBetweenRows db (ymIndex s) (ymIndex e), r.2.isSome = true) →
      1 < e.day →
      get_cpi_mom_for_month db (ymIndex e) = none →
      get_latest_cpi_mom db = some (klat, mlat) →
      calculate_cumulative_cpi_daily db s e =
        some (((1 + (ms : ℝ) / 100) ^
            ((((get_days_in_month s.year s.month : Int) - (s.day : Int) +
              1 : Int) : ℝ) / (get_days_in_month s.year s.month : ℝ)) *
          ((cpiBetweenRows db (ymIndex s) (ymIndex e)).map
            (fun r => 1 + ((r.2.getD 0 : ℚ) : ℝ) / 100)).prod *
          ((1 + (mlat : ℝ) / 100) ^
            ((((e.day : Int) - 1 : Int) : ℝ) /
              (get_days_in_month e.year e.month : ℝ))) - 1) * 100)) := by
  have parta : get_cpi_mom_for_month db (ymIndex s) = none →
      calculate_cumulative_cpi_daily db s e = none := by
    intro hmom
    unfold calculate_cumulative_cpi_daily
    rw [if_neg hne, hmom]
  refine ⟨parta, ?_, ?_⟩
  · intro k hk hlo hhi
    cases hmom : get_cpi_mom_for_month db (ymIndex s) with
    | none => exact parta hmom
    | some ms =>
      unfold calculate_cumulative_cpi_daily
      rw [if_neg hne, hmom]
      have hany : (cpiBetweenRows db (ymIndex s) (ymIndex e)).any
          (fun r => r.2.isNone) = true := by
        refine List.any_eq_true.mpr ⟨(k, none), ?_, rfl⟩
        unfold cpiBetweenRows
        exact List.mem_filter.mpr ⟨hk, by simp [hlo, hhi]⟩
      simp only [hany, if_true]
  · intro ms mlat klat hms hall hday hend hlat
    have hno : (cpiBetweenRows db (ymIndex s) (ymIndex e)).any
        (fun r => r.2.isNone) = false := by
      refine List.any_eq_false.mpr ?_
      intro r hr
      have hsome := hall r hr
      simp [Option.isNone_eq_false_iff, Option.isSome_iff_ne_none] at hsome ⊢
      exact hsome
    rw [cpi_multi_unfold db s e hne ms hms hno]
    have hef : cpiEndFactor db e = (1 + (mlat : ℝ) / 100) ^
        ((((e.day : Int) - 1 : Int) : ℝ) /
          (get_days_in_month e.year e.month : ℝ)) := by
      unfold cpiEndFactor
      rw [hend, hlat]
      rw [if_pos (by omega : (0 : Int) < (e.day : Int) - 1)]
      simp
    rw [hef]

/-- Witness for the amended C7 theorem: the end month 2024-02 of the span
2024-01-15 to 2024-02-10 has no recorded MoM, and the computation falls
back to the latest recorded rate, the 4 percent of 2024-01. -/
theorem cpi_missing_data_asymmetry_amended_witness :
    get_cpi_mom_for_month cpiLatestFallbackDb (ymIndex ⟨2024, 2, 10⟩) = none ∧
    get_latest_cpi_mom cpiLatestFallbackDb = some (24288, 4) ∧
    calculate_cumulative_cpi_daily cpiLatestFallbackDb ⟨2024, 1, 15⟩
        ⟨2024, 2, 10⟩ =
      some (((1 + ((4 : ℚ) : ℝ) / 100) ^
          ((((get_days_in_month 2024 1 : Int) - ((15 : Nat) : Int) +
            1 : Int) : ℝ) / (get_days_in_month 2024 1 : ℝ)) *
        ((cpiBetweenRows cpiLatestFallbackDb (ymIndex ⟨2024, 1, 15⟩)
          (ymIndex ⟨2024, 2, 10⟩)).map
            (fun r => 1 + ((r.2.getD 0 : ℚ) : ℝ) / 100)).prod *
        ((1 + ((4 : ℚ) : ℝ) / 100) ^
          (((((10 : Nat) : Int) - 1 : Int) : ℝ) /
            (get_days_in_month 2024 2 : ℝ))) - 1) * 100) :=
  by
  refine ⟨by decide, by decide, ?_⟩
  exact (cpi_missing_data_asymmetry_amended cpiLatestFallbackDb ⟨2024, 1, 15⟩
    ⟨2024, 2, 10⟩ (by decide)).2.2 4 4 24288 (by decide) (by decide)
    (by decide) (by decide) (by decide)

/-- C9.  Benchmark-availability escalation in calculate_real_return with
skip_usd_cpi false: the error dictionary is returned exactly when the FX
benchmark is unavailable (a missing buy-date or current-date rate) and
the CPI benchmark is unavailable too; otherwise the success dictionary is
returned, in which exactly the unavailable benchmark's fields are None
while the after-tax nominal return is always present.  The hypotheses
restrict to positive prices and rates and a CPI above -100 percent, the
domain on which the source's divisions are defined. -/
theorem real_return_benchmark_escalation (bp cp : ℚ) (bd : String) (tr : ℚ)
    (bu cu cpi : Option ℚ)
    (_hbp : 0 < bp)
    (_hbu : ∀ v, bu = some v → 0 < v)
    (_hcu : ∀ v, cu = some v → 0 < v)
    (_hcpi : ∀ v, cpi = some v → (-100 : ℚ) < v) :
    ((∃ m, calculate_real_return bp cp bd tr false bu cu cpi =
        RealReturnResult.err m) ↔ ((bu = none ∨ cu = none) ∧ cpi = none)) ∧
    (∀ a, calculate_real_return bp cp bd tr false bu cu cpi =
        RealReturnResult.ok a →
      ((a.real_return_usd_pct = none ↔ (bu = none ∨ cu = none)) ∧
       (a.usd_inflation_pct = none ↔ (bu = none ∨ cu = none)) ∧
       (a.real_return_cpi_pct = none ↔ cpi = none) ∧
       (a.cpi_inflation_pct = none ↔ cpi = none) ∧
       a.nominal_pct =
         pyRound 2 ((cp - max 0 (cp - bp) * (tr / 100) - bp) / bp * 100))) := by
  rcases bu with _ | b
  · rcases cu with _ | c
    · rcases cpi with _ | k
      · refine ⟨?_, ?_⟩
        · rw [show calculate_real_return bp cp bd tr false none none none =
              RealReturnResult.err ("Missing both USD and CPI data for " ++
                bd ++ ". Add rates in USD/CPI tabs.") from rfl]
          simp
        · intro a ha
          rw [show calculate_real_return bp cp bd tr false none none none =
              RealReturnResult.err ("Missing both USD and CPI data for " ++
                bd ++ ". Add rates in USD/CPI tabs.") from rfl] at ha
          exact absurd ha (by simp)
      · refine ⟨?_, ?_⟩
        · rw [show calculate_real_return bp cp bd tr false none none (some k) =
              RealReturnResult.ok _ from rfl]
          simp
        · intro a ha
          rw [show calculate_real_return bp cp bd tr false none none (some k) =
              RealReturnResult.ok _ from rfl] at ha
          injection ha with h
          subst h
          simp
    · rcases cpi with _ | k
      · refine ⟨?_, ?_⟩
        · rw [show calculate_real_return bp cp bd tr false none (some c) none =
              RealReturnResult.err ("Missing both USD and CPI data for " ++
                bd ++ ". Add rates in USD/CPI tabs.") from rfl]
          simp
        · intro a ha
          rw [show calculate_real_return bp cp bd tr false none (some c) none =
              RealReturnResult.err ("Missing both USD and CPI data for " ++
                bd ++ ". Add rates in USD/CPI tabs.") from rfl] at ha
          exact absurd ha (by simp)
      · refine ⟨?_, ?_⟩
        · rw [show calculate_real_return bp cp bd tr false none (some c)
              (some k) = RealReturnResult.ok _ from rfl]
          simp
        · intro a ha
          rw [show calculate_real_return bp cp bd tr false none (some c)
              (some k) = RealReturnResult.ok _ from rfl] at ha
          injection ha with h
          subst h
          simp
  · rcases cu with _ | c
    · rcases cpi with _ | k
      · refine ⟨?_, ?_⟩
        · rw [show calculate_real_return bp cp bd tr false (some b) none none =
              RealReturnResult.err ("Missing both USD and CPI data for " ++
                bd ++ ". Add rates in USD/CPI tabs.") from rfl]
          simp
        · intro a ha
          rw [show calculate_real_return bp cp bd tr false (some b) none none =
              RealReturnResult.err ("Missing both USD and CPI data for " ++
                bd ++ ". Add rates in USD/CPI tabs.") from rfl] at ha
          exact absurd ha (by simp)
      · refine ⟨?_, ?_⟩
        · rw [show calculate_real_return bp cp bd tr false (some b) none
              (some k) = RealReturnResult.ok _ from rfl]
          simp
        · intro a ha
          rw [show calculate_real_return bp cp bd tr false (some b) none
              (some k) = RealReturnResult.ok _ from rfl] at ha
          injection ha with h
          subst h
          simp
    · rcases cpi with _ | k
      · refine ⟨?_, ?_⟩
        · rw [show calculate_real_return bp cp bd tr false (some b) (some c)
              none = RealReturnResult.ok _ from rfl]
          simp
        · intro a ha
          rw [show calculate_real_return bp cp bd tr false (some b) (some c)
              none = RealReturnResult.ok _ from rfl] at ha
          injection ha with h
          subst h
          simp
      · refine ⟨?_, ?_⟩
        · rw [show calculate_real_return bp cp bd tr false (some b) (some c)
              (some k) = RealReturnResult.ok _ from rfl]
          simp
        · intro a ha
          rw [show calculate_real_return bp cp bd tr false (some b) (some c)
              (some k) = RealReturnResult.ok _ from rfl] at ha
          injection ha with h
          subst h
          simp

/-- Witness for C9: with no FX rates but a recorded CPI the call does not
return the error dictionary. -/
theorem real_return_benchmark_escalation_witness :
    (0 : ℚ) < 10 ∧
    ¬∃ m, calculate_real_return 10 12 "2024-01-01" 0 false none none (some 5) =
      RealReturnResult.err m :=
  ⟨by decide, fun h => by
    have hiff := (real_return_benchmark_escalation 10 12 "2024-01-01" 0 none
      none (some 5) (by decide) (by simp) (by simp)
      (by intro v hv; cases hv; decide)).1
    simpa using hiff.mp h⟩

section

attribute [local semireducible] Rat.add Rat.sub Rat.mul Rat.inv Rat.ofScientific

/-- C4 counterexample.  A USD lot whose two exchange-rate lookups resolve
(30 and 40) and whose cumulative CPI is available (25) still gets no
benchmark figures at all: the analysis carries None in all four benchmark
fields, because the conversion branch calls the calculator with
skip_usd_cpi True; only the after-tax USD nominal return (90 percent) is
reported. -/
theorem usd_lot_benchmarks_skipped_counterexample :
    analyzeOpenLot "USD_STOCK" "USD" 100 50 10 "2024-01-01" (some 30) (some 40)
        (some 25) =
      RealReturnResult.ok
        { nominal_pct := 90
          usd_inflation_pct := none
          real_return_usd_pct := none
          cpi_inflation_pct := none
          real_return_cpi_pct := none
          buy_usd := none
          current_usd := none
          tax_rate := 0
          tax_amount_per_share := none } := by decide

end

/-- C4 amended.  For a non-cash USD lot whose two exchange-rate lookups
are truthy, analyze_portfolio converts the buy and current prices to TRY
but calls the real-return calculator with tax_rate 0 and skip_usd_cpi
True, so no CPI or FX real returns are computed (every benchmark field of
the result is None); the reported nominal return is the after-tax return
in the original currency, with tax applied there and not re-applied after
conversion. -/
theorem usd_lot_analysis_amended (asset currency : String) (cp bp tr : ℚ)
    (bd : String) (bu cu : ℚ) (cpi : Option ℚ)
    (hasset : asset ≠ ASSET_CASH) (hcur : currency = CURRENCY_USD)
    (hbu : bu ≠ 0) (hcu : cu ≠ 0) :
    analyzeOpenLot asset currency cp bp tr bd (some bu) (some cu) cpi =
      RealReturnResult.ok
        { nominal_pct := pyRound 2
            (((if 0 < cp then cp else bp) -
              max 0 ((if 0 < cp then cp else bp) - bp) * (tr / 100) - bp) / bp *
              100)
          usd_inflation_pct := none
          real_return_usd_pct := none
          cpi_inflation_pct := none
          real_return_cpi_pct := none
          buy_usd := none
          current_usd := none
          tax_rate := 0
          tax_amount_per_share := none } := by
  subst hcur
  unfold analyzeOpenLot
  rw [if_neg hasset]
  simp only [if_pos (show CURRENCY_USD = CURRENCY_USD ∧ bu ≠ 0 ∧ cu ≠ 0 from
    ⟨rfl, hbu, hcu⟩)]
  rw [if_pos (show True ∧ bu ≠ 0 ∧ cu ≠ 0 from ⟨trivial, hbu, hcu⟩)]
  rw [show calculate_real_return (bp * bu) ((if 0 < cp then cp else bp) * cu) bd
      0 true (some bu) (some cu) cpi = RealReturnResult.ok _ from rfl]
  simp

/-- Witness for the amended C4 theorem at the counterexample input. -/
theorem usd_lot_analysis_amended_witness :
    ("USD_STOCK" : String) ≠ ASSET_CASH ∧ (30 : ℚ) ≠ 0 ∧
    analyzeOpenLot "USD_STOCK" "USD" 100 50 10 "2024-01-01" (some 30) (some 40)
        (some 25) =
      RealReturnResult.ok
        { nominal_pct := pyRound 2
            (((if (0 : ℚ) < 100 then (100 : ℚ) else 50) -
              max 0 ((if (0 : ℚ) < 100 then (100 : ℚ) else 50) - 50) *
                ((10 : ℚ) / 100) - 50) / 50 * 100)
          usd_inflation_pct := none
          real_return_usd_pct := none
          cpi_inflation_pct := none
          real_return_cpi_pct := none
          buy_usd := none
          current_usd := none
          tax_rate := 0
          tax_amount_per_share := none } :=
  ⟨by decide, by decide,
    usd_lot_analysis_amended "USD_STOCK" "USD" 100 50 10 "2024-01-01" 30 40
      (some 25) (by decide) rfl (by decide) (by decide)⟩

end LiraShield
